import Mathlib

/-!
# Verification of the `wolrs` Wake-on-LAN library

Shallow embedding of `src/lib.rs`: a MAC-address parser (`parse_mac`) and a
magic-packet builder (`create_magic_packet`), with theorems settling the
specification claims.

The Rust input type is `&str`. We model the input as its character sequence
(`List Char`). Rust's `str::len()` returns the UTF-8 byte length, while
`str::chars()` iterates over characters; both views are modelled explicitly
(`byteLen` versus `List.length`).
-/

namespace Wolrs

/-- `EUI48_LEN` from the source: length of a binary MAC address. -/
def EUI48_LEN : Nat := 6

/-- The `ParseError` enum from the source. -/
inductive ParseError where
  /-- Format is incorrect. -/
  | BadFormat : ParseError
  /-- Length is incorrect. Should be either 12, 14 or 17. -/
  | BadLength (n : Nat) : ParseError
  /-- Character is not a valid hex character or one of the separators. -/
  | BadCharacter (c : Char) (idx : Nat) : ParseError
deriving DecidableEq, Repr

/-- The Rust pattern `'0'...'9' | 'a'...'f' | 'A'...'F'` (inclusive char
ranges) used in the scanner's match. -/
def isHexDigit (c : Char) : Bool :=
  (decide ('0' ≤ c) && decide (c ≤ '9')) ||
  (decide ('a' ≤ c) && decide (c ≤ 'f')) ||
  (decide ('A' ≤ c) && decide (c ≤ 'F'))

/-- The Rust pattern `'-' | ':' | '.'` for separator characters. -/
def isSep (c : Char) : Bool :=
  c = '-' || c = ':' || c = '.'

/-- `c.to_digit(16).unwrap()` restricted to the characters matched by
`isHexDigit`: the numeric value of a hex digit. -/
def hexVal (c : Char) : Nat :=
  if decide ('0' ≤ c) && decide (c ≤ '9') then c.toNat - '0'.toNat
  else if decide ('a' ≤ c) && decide (c ≤ 'f') then c.toNat - 'a'.toNat + 10
  else c.toNat - 'A'.toNat + 10

/-- `str::len()`: the UTF-8 byte length of the character sequence. -/
def byteLen (s : List Char) : Nat :=
  (s.map Char.utf8Size).sum

/-- The `for (idx, c) in mac.chars().enumerate()` loop of `parse_mac`.
State: `idx` is the enumeration index, `eui` the octet array being filled,
`highNibble` the `high_nibble` flag ("whether the last nibble was the high
nibble"), `off` the `offset` into `eui`.  Each hex digit stores its value
shifted (`<< 4` is `* 16`; no `u8` overflow is possible since a digit value
is at most 15 and a slot holds at most `15 * 16 + 15 = 255`). -/
def scanMac : List Char → Nat → List Nat → Bool → Nat → Except ParseError (List Nat)
  | [], _, eui, _, _ => .ok eui
  | c :: rest, idx, eui, highNibble, off =>
    if EUI48_LEN ≤ off then
      .error .BadFormat
    else if isHexDigit c then
      match highNibble with
      | false => scanMac rest (idx + 1) (eui.set off (hexVal c * 16)) true off
      | true => scanMac rest (idx + 1) (eui.set off (eui.getD off 0 + hexVal c)) false (off + 1)
    else if isSep c then
      scanMac rest (idx + 1) eui highNibble off
    else
      .error (.BadCharacter c idx)

/-- `parse_mac` from the source: the length pre-check on `mac.len()`
(UTF-8 bytes), then the character scan starting from a zeroed octet array,
`high_nibble = false` and `offset = 0`. -/
def parse_mac (mac : List Char) : Except ParseError (List Nat) :=
  if byteLen mac = 12 ∨ byteLen mac = 14 ∨ byteLen mac = 17 then
    scanMac mac 0 (List.replicate EUI48_LEN 0) false 0
  else
    .error (.BadLength (byteLen mac))

/-- The double loop of `create_magic_packet`:
`for i in 1..17 { for j in 0..6 { packet[i * 6 + j] = mac[j]; } }`. -/
def fillLoop (mac : List Nat) (packet : List Nat) : List Nat :=
  (List.range' 1 16).foldl
    (fun p i => (List.range 6).foldl (fun q j => q.set (i * 6 + j) (mac.getD j 0)) p)
    packet

/-- `create_magic_packet` from the source: a 102-byte buffer of `0xFF`,
the parse (propagating its error), then the fill loop. -/
def create_magic_packet (mac : List Char) : Except ParseError (List Nat) :=
  match parse_mac mac with
  | .error e => .error e
  | .ok eui => .ok (fillLoop eui (List.replicate 102 0xFF))

/-! ## Concrete inputs appearing in the specification's scenarios -/

/-- `"ca.11:ab-1e.ba:be"` as a character sequence. -/
def mixedInput : List Char :=
  ['c', 'a', '.', '1', '1', ':', 'a', 'b', '-', '1', 'e', '.', 'b', 'a', ':', 'b', 'e']

/-- `"ca:11:ab:1e:ba:be"` as a character sequence. -/
def uniformInput : List Char :=
  ['c', 'a', ':', '1', '1', ':', 'a', 'b', ':', '1', 'e', ':', 'b', 'a', ':', 'b', 'e']

/-- `"he.js:an:cc:dd:ee"` as a character sequence. -/
def hejsInput : List Char :=
  ['h', 'e', '.', 'j', 's', ':', 'a', 'n', ':', 'c', 'c', ':', 'd', 'd', ':', 'e', 'e']

/-- `"AA:aa:aa:aa:aa:aa"` as a character sequence. -/
def upperLowerInput : List Char :=
  ['A', 'A', ':', 'a', 'a', ':', 'a', 'a', ':', 'a', 'a', ':', 'a', 'a', ':', 'a', 'a']

/-- `"aa:aa:aa:aa:aa:aa"` as a character sequence. -/
def lowerInput : List Char :=
  ['a', 'a', ':', 'a', 'a', ':', 'a', 'a', ':', 'a', 'a', ':', 'a', 'a', ':', 'a', 'a']

/-- `"a-ab-bc-cd-de-ef1"`: separators off the octet boundaries. -/
def offBoundaryInput : List Char :=
  ['a', '-', 'a', 'b', '-', 'b', 'c', '-', 'c', 'd', '-', 'd', 'e', '-', 'e', 'f', '1']

/-- Twelve separators and no hex digit at all. -/
def sepsOnlyInput : List Char := List.replicate 12 ':'

/-- Twelve characters, thirteen UTF-8 bytes: `'é'` followed by eleven `'a'`s. -/
def multibyteInput : List Char := 'é' :: List.replicate 11 'a'

/-- `'!'` followed by thirteen hex digits: fourteen characters, more than
twelve hex digits. -/
def bangHexInput : List Char := '!' :: List.replicate 13 'a'

/-- Twelve hex digits followed by two `'!'`: the first invalid character
sits after the twelfth hex digit. -/
def tailBangInput : List Char := List.replicate 12 'a' ++ ['!', '!']

/-! ## Scan invariants -/

/-- A separator character is not a hex digit. -/
lemma sep_not_hex {c : Char} (h : isSep c = true) : isHexDigit c = false := by
  simp only [isSep, Bool.or_eq_true, decide_eq_true_eq] at h
  rcases h with (h | h) | h <;> subst h <;> decide

/-- A separator character occupies one UTF-8 byte. -/
lemma sep_utf8Size {c : Char} (h : isSep c = true) : c.utf8Size = 1 := by
  simp only [isSep, Bool.or_eq_true, decide_eq_true_eq] at h
  rcases h with (h | h) | h <;> subst h <;> decide

/-- The scan preserves the length of the octet array. -/
lemma scan_ok_length (cs : List Char) : ∀ idx eui hn off a,
    scanMac cs idx eui hn off = .ok a → a.length = eui.length := by
  induction cs with
  | nil =>
    intro idx eui hn off a h
    simp only [scanMac, Except.ok.injEq] at h
    subst h; rfl
  | cons c rest ih =>
    intro idx eui hn off a h
    simp only [scanMac] at h
    split at h
    · exact absurd h (by simp)
    · split at h
      · match hn, h with
        | false, h => simpa [List.length_set] using ih _ _ _ _ _ h
        | true, h => simpa [List.length_set] using ih _ _ _ _ _ h
      · split at h
        · exact ih _ _ _ _ _ h
        · exact absurd h (by simp)

/-- The scan never reports a `BadLength` error. -/
lemma scan_ne_BadLength (cs : List Char) : ∀ idx eui hn off n,
    scanMac cs idx eui hn off ≠ .error (.BadLength n) := by
  induction cs with
  | nil => intro idx eui hn off n; simp [scanMac]
  | cons c rest ih =>
    intro idx eui hn off n h
    simp only [scanMac] at h
    split at h
    · simp at h
    · split at h
      · match hn, h with
        | false, h => exact ih _ _ _ _ _ h
        | true, h => exact ih _ _ _ _ _ h
      · split at h
        · exact ih _ _ _ _ _ h
        · simp at h

/-- When the scan succeeds, the number of hex digits in the remaining
input plus the nibbles already consumed is at most twelve. -/
lemma scan_ok_countP_le (cs : List Char) : ∀ idx eui hn off a,
    off ≤ EUI48_LEN → (hn = true → off < EUI48_LEN) →
    scanMac cs idx eui hn off = .ok a →
    cs.countP isHexDigit + 2 * off + hn.toNat ≤ 12 := by
  induction cs with
  | nil =>
    intro idx eui hn off a hoff hhn _
    have hoff6 : off ≤ 6 := hoff
    cases hn with
    | false => simp only [List.countP_nil, Bool.toNat_false]; omega
    | true =>
      have hofflt : off < 6 := hhn rfl
      simp only [List.countP_nil, Bool.toNat_true]; omega
  | cons c rest ih =>
    intro idx eui hn off a hoff hhn h
    simp only [scanMac] at h
    split at h
    · simp at h
    · rename_i hguard
      have hofflt : off < EUI48_LEN := by omega
      split at h
      · rename_i hhex
        match hn, h with
        | false, h =>
          have hrec := ih _ _ _ _ _ hoff (fun _ => hofflt) h
          simp only [Bool.toNat_true] at hrec
          simp only [List.countP_cons, hhex, if_true, Bool.toNat_false]
          omega
        | true, h =>
          have hrec := ih _ _ _ _ _ hofflt (by simp) h
          simp only [Bool.toNat_false] at hrec
          simp only [List.countP_cons, hhex, if_true, Bool.toNat_true]
          omega
      · rename_i hnothex
        split at h
        · have hrec := ih _ _ _ _ _ hoff hhn h
          simp only [List.countP_cons, if_neg hnothex]
          omega
        · simp at h

/-- Two character sequences agree position by position except that a
separator may face a (possibly different) separator. -/
def sepCompatible : List Char → List Char → Bool
  | [], [] => true
  | a :: s, b :: t => ((a == b) || (isSep a && isSep b)) && sepCompatible s t
  | _, _ => false

/-- Separator-compatible inputs have the same UTF-8 byte length. -/
lemma sepCompatible_byteLen (s : List Char) : ∀ t, sepCompatible s t = true →
    byteLen s = byteLen t := by
  induction s with
  | nil => intro t h; cases t with
    | nil => rfl
    | cons b t => simp [sepCompatible] at h
  | cons a s ih =>
    intro t h
    cases t with
    | nil => simp [sepCompatible] at h
    | cons b t =>
      simp only [sepCompatible, Bool.and_eq_true, Bool.or_eq_true, beq_iff_eq] at h
      obtain ⟨hab | ⟨ha, hb⟩, hrest⟩ := h
      · subst hab
        simp only [byteLen, List.map_cons, List.sum_cons]
        exact congrArg _ (ih t hrest)
      · simp only [byteLen, List.map_cons, List.sum_cons,
          sep_utf8Size ha, sep_utf8Size hb]
        exact congrArg _ (ih t hrest)

/-- Separator-compatible inputs scan identically from any state. -/
lemma scan_sepCompatible (s : List Char) : ∀ t idx eui hn off,
    sepCompatible s t = true →
    scanMac s idx eui hn off = scanMac t idx eui hn off := by
  induction s with
  | nil => intro t idx eui hn off h; cases t with
    | nil => rfl
    | cons b t => simp [sepCompatible] at h
  | cons a s ih =>
    intro t idx eui hn off h
    cases t with
    | nil => simp [sepCompatible] at h
    | cons b t =>
      simp only [sepCompatible, Bool.and_eq_true, Bool.or_eq_true, beq_iff_eq] at h
      obtain ⟨hab | ⟨ha, hb⟩, hrest⟩ := h
      · subst hab
        simp only [scanMac]
        split
        · rfl
        · split
          · cases hn <;> exact ih t _ _ _ _ hrest
          · split
            · exact ih t _ _ _ _ hrest
            · rfl
      · simp only [scanMac, sep_not_hex ha, sep_not_hex hb, ha, hb,
          Bool.false_eq_true, if_false, if_true]
        split
        · rfl
        · exact ih t _ _ _ _ hrest

/-- If the input consists of hex digits and separators only and some
proper initial segment already accounts for twelve nibbles, the scan hits
the offset guard and reports `BadFormat`. -/
lemma scan_overflow (cs : List Char) : ∀ idx eui hn off,
    off ≤ EUI48_LEN → (∀ c ∈ cs, isHexDigit c = true ∨ isSep c = true) →
    (∃ k, k < cs.length ∧ 12 ≤ 2 * off + hn.toNat + (cs.take k).countP isHexDigit) →
    scanMac cs idx eui hn off = .error .BadFormat := by
  induction cs with
  | nil =>
    intro idx eui hn off _ _ hk
    obtain ⟨k, hk, _⟩ := hk
    simp at hk
  | cons c rest ih =>
    intro idx eui hn off hoff hall hk
    obtain ⟨k, hklt, hk12⟩ := hk
    by_cases hguard : EUI48_LEN ≤ off
    · simp only [scanMac, if_pos hguard]
    · have hofflt : off < 6 := by
        have : EUI48_LEN = 6 := rfl
        omega
      have hofflt6 : off < EUI48_LEN := hofflt
      rcases hall c (by simp) with hhex | hsep
      · cases hn with
        | false =>
          simp only [scanMac, if_neg hguard, hhex, if_true]
          apply ih _ _ _ _ (le_of_lt hofflt6)
            (fun x hx => hall x (List.mem_cons_of_mem _ hx))
          match k, hklt, hk12 with
          | 0, _, hk12 =>
            exfalso
            simp only [List.take_zero, List.countP_nil, Bool.toNat_false] at hk12
            omega
          | k + 1, hklt, hk12 =>
            refine ⟨k, by simpa using hklt, ?_⟩
            simp only [List.take_succ_cons, List.countP_cons, hhex, if_true,
              Bool.toNat_false, Bool.toNat_true] at *
            omega
        | true =>
          simp only [scanMac, if_neg hguard, hhex, if_true]
          apply ih _ _ _ _ hofflt6
            (fun x hx => hall x (List.mem_cons_of_mem _ hx))
          match k, hklt, hk12 with
          | 0, _, hk12 =>
            exfalso
            simp only [List.take_zero, List.countP_nil, Bool.toNat_true] at hk12
            omega
          | k + 1, hklt, hk12 =>
            refine ⟨k, by simpa using hklt, ?_⟩
            simp only [List.take_succ_cons, List.countP_cons, hhex, if_true,
              Bool.toNat_false, Bool.toNat_true] at *
            omega
      · simp only [scanMac, if_neg hguard, sep_not_hex hsep,
          Bool.false_eq_true, if_false, hsep, if_true]
        apply ih _ _ _ _ (le_of_lt hofflt6)
          (fun x hx => hall x (List.mem_cons_of_mem _ hx))
        match k, hklt, hk12 with
        | 0, _, hk12 =>
          exfalso
          simp only [List.take_zero, List.countP_nil] at hk12
          have : hn.toNat ≤ 1 := Bool.toNat_le hn
          omega
        | k + 1, hklt, hk12 =>
          refine ⟨k, by simpa using hklt, ?_⟩
          simp only [List.take_succ_cons, List.countP_cons,
            sep_not_hex hsep, Bool.false_eq_true, if_false] at *
          omega

/-- Scanning a block of hex digits and separators worth fewer than twelve
nibbles, followed by a character that is neither, reports exactly that
character and its enumeration index. -/
lemma scan_first_bad (c : Char) (post : List Char) (hc1 : isHexDigit c = false)
    (hc2 : isSep c = false) :
    ∀ (pre : List Char) idx eui hn off,
    (∀ x ∈ pre, isHexDigit x = true ∨ isSep x = true) →
    2 * off + hn.toNat + pre.countP isHexDigit < 12 →
    scanMac (pre ++ c :: post) idx eui hn off = .error (.BadCharacter c (idx + pre.length)) := by
  intro pre
  induction pre with
  | nil =>
    intro idx eui hn off _ hlt
    have hofflt : ¬ EUI48_LEN ≤ off := by
      have h1 : hn.toNat ≤ 1 := Bool.toNat_le hn
      have : EUI48_LEN = 6 := rfl
      omega
    simp only [List.nil_append, scanMac, if_neg hofflt, hc1,
      Bool.false_eq_true, if_false, hc2, List.length_nil, Nat.add_zero]
  | cons x pre ih =>
    intro idx eui hn off hall hlt
    have h1 : hn.toNat ≤ 1 := Bool.toNat_le hn
    have hofflt : ¬ EUI48_LEN ≤ off := by
      have : EUI48_LEN = 6 := rfl
      have hcnt : 0 ≤ pre.countP isHexDigit := Nat.zero_le _
      simp only [List.countP_cons] at hlt
      omega
    have heq : idx + 1 + pre.length = idx + (x :: pre).length := by
      simp only [List.length_cons]; omega
    rcases hall x (by simp) with hhex | hsep
    · cases hn with
      | false =>
        simp only [List.cons_append, scanMac, if_neg hofflt, hhex, if_true]
        refine Eq.trans (ih _ _ _ _ (fun y hy => hall y (List.mem_cons_of_mem _ hy)) ?_) ?_
        · simp only [List.countP_cons, hhex, if_true, Bool.toNat_false,
            Bool.toNat_true] at *
          omega
        · rw [heq]
      | true =>
        simp only [List.cons_append, scanMac, if_neg hofflt, hhex, if_true]
        refine Eq.trans (ih _ _ _ _ (fun y hy => hall y (List.mem_cons_of_mem _ hy)) ?_) ?_
        · simp only [List.countP_cons, hhex, if_true, Bool.toNat_false,
            Bool.toNat_true] at *
          omega
        · rw [heq]
    · simp only [List.cons_append, scanMac, if_neg hofflt, sep_not_hex hsep,
        Bool.false_eq_true, if_false, hsep, if_true]
      refine Eq.trans (ih _ _ _ _ (fun y hy => hall y (List.mem_cons_of_mem _ hy)) ?_) ?_
      · simp only [List.countP_cons, sep_not_hex hsep,
          Bool.false_eq_true, if_false] at *
        omega
      · rw [heq]

/-! ## The fill loop of `create_magic_packet` -/

/-- The inner loop preserves the packet length. -/
lemma inner_foldl_length (i : Nat) (a : List Nat) (l : List Nat) : ∀ p : List Nat,
    (l.foldl (fun q j => q.set (i * 6 + j) (a.getD j 0)) p).length = p.length := by
  induction l with
  | nil => intro p; rfl
  | cons x l ih => intro p; simpa [List.length_set] using ih (p.set (i * 6 + x) (a.getD x 0))

/-- The outer loop preserves the packet length. -/
lemma outer_foldl_length (a : List Nat) (l : List Nat) : ∀ p : List Nat,
    (l.foldl (fun p i => (List.range 6).foldl
      (fun q j => q.set (i * 6 + j) (a.getD j 0)) p) p).length = p.length := by
  induction l with
  | nil => intro p; rfl
  | cons x l ih =>
    intro p
    rw [List.foldl_cons, ih, inner_foldl_length]

/-- `fillLoop` preserves the packet length. -/
lemma fillLoop_length (a p : List Nat) : (fillLoop a p).length = p.length :=
  outer_foldl_length a _ p

/-- A position the inner loop never writes is untouched by it. -/
lemma inner_foldl_getElem?_ne (i : Nat) (a : List Nat) (n : Nat) (l : List Nat)
    (hl : ∀ j ∈ l, i * 6 + j ≠ n) : ∀ p : List Nat,
    (l.foldl (fun q j => q.set (i * 6 + j) (a.getD j 0)) p)[n]? = p[n]? := by
  induction l with
  | nil => intro p; rfl
  | cons x l ih =>
    intro p
    have hx : i * 6 + x ≠ n := hl x (by simp)
    rw [List.foldl_cons, ih (fun j hj => hl j (List.mem_cons_of_mem _ hj)),
      List.getElem?_set_ne hx]

/-- A position no iteration of the outer loop writes is untouched by it. -/
lemma outer_foldl_getElem?_ne (a : List Nat) (n : Nat) (l : List Nat)
    (hl : ∀ i ∈ l, ∀ j ∈ List.range 6, i * 6 + j ≠ n) : ∀ p : List Nat,
    (l.foldl (fun p i => (List.range 6).foldl
      (fun q j => q.set (i * 6 + j) (a.getD j 0)) p) p)[n]? = p[n]? := by
  induction l with
  | nil => intro p; rfl
  | cons x l ih =>
    intro p
    rw [List.foldl_cons, ih (fun i hi => hl i (List.mem_cons_of_mem _ hi)),
      inner_foldl_getElem?_ne _ _ _ _ (hl x (by simp))]

/-- One iteration of the inner loop writes octet `j` of the address at
position `i * 6 + j`. -/
lemma inner_foldl_getElem?_write (i : Nat) (a : List Nat) (j : Nat) (hj : j < 6)
    (p : List Nat) (hlen : i * 6 + j < p.length) :
    ((List.range 6).foldl (fun q j => q.set (i * 6 + j) (a.getD j 0)) p)[i * 6 + j]? =
      some (a.getD j 0) := by
  have hsplit : List.range 6 = List.range' 0 j ++ j :: List.range' (j + 1) (5 - j) := by
    have h1 := List.range'_append 0 j (6 - j) 1
    have h2 : List.range' j (6 - j) = j :: List.range' (j + 1) (5 - j) := by
      have h3 : 6 - j = (5 - j) + 1 := by omega
      rw [h3, List.range'_succ]
    simp only [Nat.one_mul, Nat.zero_add] at h1
    rw [List.range_eq_range', show (6 : Nat) = (6 - j) + j by omega, ← h1, h2]
  rw [hsplit, List.foldl_append, List.foldl_cons]
  have hq := inner_foldl_length i a (List.range' 0 j) p
  rw [inner_foldl_getElem?_ne _ _ _ _ (fun j' hj' => by
    have : j + 1 ≤ j' := (List.mem_range'_1.mp hj').1
    omega)]
  exact List.getElem?_set_eq_of_lt _ (by rw [hq]; exact hlen)

/-- Positions `0..5` hold their initial value after `fillLoop`. -/
lemma fillLoop_getElem?_low (a p : List Nat) (n : Nat) (hn : n < 6) :
    (fillLoop a p)[n]? = p[n]? := by
  unfold fillLoop
  exact outer_foldl_getElem?_ne a n _ (fun i hi j hj => by
    have h1 : 1 ≤ i := (List.mem_range'_1.mp hi).1
    omega) p

/-- Position `6 + 6 * i + j` of the filled packet holds octet `j` of the
address, for every copy `i < 16`. -/
lemma fillLoop_getElem?_hit (a p : List Nat) (hp : p.length = 102) (i j : Nat)
    (hi : i < 16) (hj : j < 6) :
    (fillLoop a p)[6 + 6 * i + j]? = some (a.getD j 0) := by
  have hsplit : List.range' 1 16 = List.range' 1 i ++ (i + 1) :: List.range' (i + 2) (15 - i) := by
    have h1 := List.range'_append 1 i (16 - i) 1
    have h2 : List.range' (1 + i) (16 - i) = (i + 1) :: List.range' (i + 2) (15 - i) := by
      rw [show 1 + i = i + 1 by omega, show 16 - i = (15 - i) + 1 by omega,
        List.range'_succ]
    simp only [Nat.one_mul] at h1
    rw [show (16 : Nat) = (16 - i) + i by omega, ← h1, h2]
  unfold fillLoop
  rw [hsplit, List.foldl_append, List.foldl_cons]
  have hq : ((List.range' 1 i).foldl (fun p i => (List.range 6).foldl
      (fun q j => q.set (i * 6 + j) (a.getD j 0)) p) p).length = p.length :=
    outer_foldl_length a _ p
  rw [outer_foldl_getElem?_ne a _ _ (fun i' hi' j' hj' => by
    have h1 : i + 2 ≤ i' := (List.mem_range'_1.mp hi').1
    have h2 : j' < 6 := List.mem_range.mp hj'
    omega)]
  have hwrite := inner_foldl_getElem?_write (i + 1) a j hj
    ((List.range' 1 i).foldl (fun p i => (List.range 6).foldl
      (fun q j => q.set (i * 6 + j) (a.getD j 0)) p) p)
    (by rw [hq, hp]; omega)
  have harith : (i + 1) * 6 + j = 6 + 6 * i + j := by ring
  rw [harith] at hwrite
  exact hwrite

/-! ## Successful scans of well-formed input -/

/-- The octet array obtained by feeding a sequence of hex digits to the
scanner from state `(off, hn)`: the nibble bookkeeping of `scanMac`
restricted to the digits it actually stores. -/
def consume (eui : List Nat) (off : Nat) (hn : Bool) : List Char → List Nat
  | [] => eui
  | c :: ds =>
    match hn with
    | false => consume (eui.set off (hexVal c * 16)) off true ds
    | true => consume (eui.set off (eui.getD off 0 + hexVal c)) (off + 1) false ds

/-- Pairing of hex digits as the specification describes it: the first
digit of each pair is the high nibble of an octet, the second the low
nibble. -/
def hexPairs : List Char → List Nat
  | a :: b :: rest => (hexVal a * 16 + hexVal b) :: hexPairs rest
  | _ => []

/-- On input made of hex digits and separators where every character is
preceded by fewer than twelve hex digits, the scan succeeds and produces
the octets obtained from the digit subsequence alone. -/
lemma scan_all_good (cs : List Char) : ∀ idx eui hn off,
    (∀ x ∈ cs, isHexDigit x = true ∨ isSep x = true) →
    (∀ k, k < cs.length → 2 * off + hn.toNat + (cs.take k).countP isHexDigit < 12) →
    scanMac cs idx eui hn off = .ok (consume eui off hn (cs.filter isHexDigit)) := by
  induction cs with
  | nil => intro idx eui hn off _ _; rfl
  | cons c rest ih =>
    intro idx eui hn off hall hk
    have h1 : hn.toNat ≤ 1 := Bool.toNat_le hn
    have hk0 := hk 0 (by simp)
    simp only [List.take_zero, List.countP_nil, Nat.add_zero] at hk0
    have hofflt : ¬ EUI48_LEN ≤ off := by
      have : EUI48_LEN = 6 := rfl
      omega
    rcases hall c (by simp) with hhex | hsep
    · cases hn with
      | false =>
        simp only [scanMac, if_neg hofflt, hhex, if_true, List.filter_cons_of_pos hhex,
          consume]
        apply ih _ _ _ _ (fun y hy => hall y (List.mem_cons_of_mem _ hy))
        intro k hklt
        have := hk (k + 1) (by simpa using hklt)
        simp only [List.take_succ_cons, List.countP_cons, hhex, if_true,
          Bool.toNat_false, Bool.toNat_true] at *
        omega
      | true =>
        simp only [scanMac, if_neg hofflt, hhex, if_true, List.filter_cons_of_pos hhex,
          consume]
        apply ih _ _ _ _ (fun y hy => hall y (List.mem_cons_of_mem _ hy))
        intro k hklt
        have := hk (k + 1) (by simpa using hklt)
        simp only [List.take_succ_cons, List.countP_cons, hhex, if_true,
          Bool.toNat_false, Bool.toNat_true] at *
        omega
    · have hnothex := sep_not_hex hsep
      have hfilter : List.filter isHexDigit (c :: rest) = List.filter isHexDigit rest := by
        simp [List.filter_cons, hnothex]
      simp only [scanMac, if_neg hofflt, hnothex, Bool.false_eq_true, if_false,
        hsep, if_true, hfilter]
      apply ih _ _ _ _ (fun y hy => hall y (List.mem_cons_of_mem _ hy))
      intro k hklt
      have := hk (k + 1) (by simpa using hklt)
      simp only [List.take_succ_cons, List.countP_cons, hnothex,
        Bool.false_eq_true, if_false] at *
      omega

/-- Consuming exactly twelve digits starting from the zeroed octet array
yields the six paired octets. -/
lemma consume_eq_hexPairs (ds : List Char) (h : ds.length = 12) :
    consume (List.replicate EUI48_LEN 0) 0 false ds = hexPairs ds := by
  rcases ds with _ | ⟨d0, ds⟩; · simp at h
  rcases ds with _ | ⟨d1, ds⟩; · simp at h
  rcases ds with _ | ⟨d2, ds⟩; · simp at h
  rcases ds with _ | ⟨d3, ds⟩; · simp at h
  rcases ds with _ | ⟨d4, ds⟩; · simp at h
  rcases ds with _ | ⟨d5, ds⟩; · simp at h
  rcases ds with _ | ⟨d6, ds⟩; · simp at h
  rcases ds with _ | ⟨d7, ds⟩; · simp at h
  rcases ds with _ | ⟨d8, ds⟩; · simp at h
  rcases ds with _ | ⟨d9, ds⟩; · simp at h
  rcases ds with _ | ⟨d10, ds⟩; · simp at h
  rcases ds with _ | ⟨d11, ds⟩; · simp at h
  rcases ds with _ | ⟨d12, ds⟩
  · rfl
  · simp only [List.length_cons] at h; omega

deriving instance DecidableEq for Except

/-! ## Claim theorems -/

/-- Claim C1: whenever `parse_mac` succeeds with an address `a`, the
address has six octets and `create_magic_packet` succeeds with a 102-byte
payload whose bytes `0..6` are `0xFF` and whose bytes
`6 + 6 * i .. 6 + 6 * i + 6` equal `a` for every copy `i < 16`. -/
theorem C1_payload_structure (mac : List Char) (a : List Nat)
    (h : parse_mac mac = .ok a) :
    a.length = 6 ∧ ∃ p, create_magic_packet mac = .ok p ∧ p.length = 102 ∧
      (∀ k, k < 6 → p.getD k 0 = 0xFF) ∧
      (∀ i j, i < 16 → j < 6 → p.getD (6 + 6 * i + j) 0 = a.getD j 0) := by
  constructor
  · unfold parse_mac at h
    split at h
    · simpa using scan_ok_length mac 0 _ false 0 a h
    · simp at h
  · refine ⟨fillLoop a (List.replicate 102 0xFF), ?_, ?_, ?_, ?_⟩
    · simp only [create_magic_packet, h]
    · rw [fillLoop_length]; rfl
    · intro k hk
      rw [List.getD_eq_getElem?_getD, fillLoop_getElem?_low a _ k hk,
        List.getElem?_replicate, if_pos (by omega : k < 102)]
      rfl
    · intro i j hi hj
      rw [List.getD_eq_getElem?_getD,
        fillLoop_getElem?_hit a _ (by simp) i j hi hj]
      rfl

/-- Witness for claim C1 at the input `"ca:11:ab:1e:ba:be"`. -/
theorem C1_payload_structure_witness :
    ([0xCA, 0x11, 0xAB, 0x1E, 0xBA, 0xBE] : List Nat).length = 6 ∧
    ∃ p, create_magic_packet uniformInput = .ok p ∧ p.length = 102 ∧
      (∀ k, k < 6 → p.getD k 0 = 0xFF) ∧
      (∀ i j, i < 16 → j < 6 →
        p.getD (6 + 6 * i + j) 0 = ([0xCA, 0x11, 0xAB, 0x1E, 0xBA, 0xBE] : List Nat).getD j 0) :=
  C1_payload_structure uniformInput [0xCA, 0x11, 0xAB, 0x1E, 0xBA, 0xBE] (by decide)

/-- Counterexample to claim C2: the twelve-separator input parses
successfully although it contains no hex digit at all, so success does not
require that twelve hex digits were consumed. -/
theorem C2_counterexample :
    parse_mac sepsOnlyInput = .ok [0, 0, 0, 0, 0, 0] ∧
    sepsOnlyInput.countP isHexDigit = 0 := by decide

/-- Claim C2 as amended: a successful parse consumed at most twelve hex
digits; it may have consumed fewer when separators pad the input. -/
theorem C2_amended_hex_budget (mac : List Char) (a : List Nat)
    (h : parse_mac mac = .ok a) : mac.countP isHexDigit ≤ 12 := by
  unfold parse_mac at h
  split at h
  · have hle := scan_ok_countP_le mac 0 _ false 0 a (Nat.zero_le _)
      (fun hfalse => by simp at hfalse) h
    simpa using hle
  · simp at h

/-- Witness for the amended claim C2 at the input `"aaaaaaaaaaaa"`. -/
theorem C2_amended_hex_budget_witness :
    (List.replicate 12 'a').countP isHexDigit ≤ 12 :=
  C2_amended_hex_budget (List.replicate 12 'a') (List.replicate 6 0xAA) (by decide)

/-- Counterexample to claim C3: `"éaaaaaaaaaaa"` counts twelve characters
but thirteen UTF-8 bytes, and parsing fails with `BadLength 13` even
though the character count is in the accepted set. -/
theorem C3_counterexample :
    multibyteInput.length = 12 ∧
    parse_mac multibyteInput = .error (.BadLength 13) := by decide

/-- Claim C3 as amended: length is measured in UTF-8 bytes.  Any input
whose byte length is not in `{12, 14, 17}` fails immediately with
`BadLength` carrying that byte length regardless of content, and no input
whose byte length is in the set ever produces a `BadLength` error. -/
theorem C3_amended_byte_length (mac : List Char) (n : Nat) :
    (¬(byteLen mac = 12 ∨ byteLen mac = 14 ∨ byteLen mac = 17) →
      parse_mac mac = .error (.BadLength (byteLen mac))) ∧
    ((byteLen mac = 12 ∨ byteLen mac = 14 ∨ byteLen mac = 17) →
      parse_mac mac ≠ .error (.BadLength n)) := by
  constructor
  · intro hlen
    unfold parse_mac
    rw [if_neg hlen]
  · intro hlen
    unfold parse_mac
    rw [if_pos hlen]
    exact scan_ne_BadLength mac 0 _ false 0 n

/-- Witness for the amended claim C3 at a 13-byte and a 12-byte input. -/
theorem C3_amended_byte_length_witness :
    parse_mac (List.replicate 13 'a') = .error (.BadLength 13) ∧
    parse_mac (List.replicate 12 'a') ≠ .error (.BadLength 12) :=
  ⟨(C3_amended_byte_length (List.replicate 13 'a') 13).1 (by decide),
   (C3_amended_byte_length (List.replicate 12 'a') 12).2 (by decide)⟩

/-- Counterexample to claim C4: `"!aaaaaaaaaaaaa"` has accepted length 14
and thirteen hex digits (so characters after the twelfth hex digit), yet
parsing reports `BadCharacter`, not `BadFormat`, because the invalid
character is reached first. -/
theorem C4_counterexample :
    bangHexInput.length = 14 ∧ byteLen bangHexInput = 14 ∧
    bangHexInput.countP isHexDigit = 13 ∧
    parse_mac bangHexInput = .error (.BadCharacter '!' 0) ∧
    parse_mac bangHexInput ≠ .error .BadFormat := by decide

/-- Claim C4 as amended: on accepted-length input made only of hex digits
and separators, if some proper initial segment already contains twelve hex
digits (i.e. the input has more than twelve hex digits, or any character
after the twelfth hex digit), parsing fails with `BadFormat`. -/
theorem C4_amended_overflow (mac : List Char)
    (hlen : byteLen mac = 12 ∨ byteLen mac = 14 ∨ byteLen mac = 17)
    (hall : ∀ c ∈ mac, isHexDigit c = true ∨ isSep c = true)
    (k : Nat) (hk : k < mac.length)
    (h12 : 12 ≤ (mac.take k).countP isHexDigit) :
    parse_mac mac = .error .BadFormat := by
  unfold parse_mac
  rw [if_pos hlen]
  exact scan_overflow mac 0 _ false 0 (Nat.zero_le _) hall ⟨k, hk, by simpa using h12⟩

/-- Witness for the amended claim C4 at the input `"aaaaaaaaaaaaaa"`. -/
theorem C4_amended_overflow_witness :
    parse_mac (List.replicate 14 'a') = .error .BadFormat :=
  C4_amended_overflow (List.replicate 14 'a') (by decide) (by decide) 12 (by decide)
    (by decide)

/-- Counterexample to claim C5: `"aaaaaaaaaaaa!!"` has accepted length and
contains invalid characters, yet parsing reports `BadFormat`, not
`BadCharacter`, because the first invalid character sits after the twelfth
hex digit. -/
theorem C5_counterexample :
    tailBangInput.length = 14 ∧
    tailBangInput.countP (fun c => !(isHexDigit c || isSep c)) = 2 ∧
    parse_mac tailBangInput = .error .BadFormat := by decide

/-- Claim C5 as amended: on accepted-length input, if the first character
that is neither a hex digit nor a separator is preceded by fewer than
twelve hex digits, parsing fails with `BadCharacter` carrying that
character and its character index; when twelve hex digits precede it, the
offset guard fires first and the result is `BadFormat` instead. -/
theorem C5_amended_first_bad (pre post : List Char) (c : Char)
    (hlen : byteLen (pre ++ c :: post) = 12 ∨ byteLen (pre ++ c :: post) = 14 ∨
      byteLen (pre ++ c :: post) = 17)
    (hpre : ∀ x ∈ pre, isHexDigit x = true ∨ isSep x = true)
    (hc1 : isHexDigit c = false) (hc2 : isSep c = false)
    (hcount : pre.countP isHexDigit < 12) :
    parse_mac (pre ++ c :: post) = .error (.BadCharacter c pre.length) := by
  unfold parse_mac
  rw [if_pos hlen]
  have hscan := scan_first_bad c post hc1 hc2 pre 0 (List.replicate EUI48_LEN 0)
    false 0 hpre (by simpa using hcount)
  simpa using hscan

/-- Witness for the amended claim C5 at the input `"xx:xx:xx:xx:xx:xx"`. -/
theorem C5_amended_first_bad_witness :
    parse_mac ('x' :: ['x', ':', 'x', 'x', ':', 'x', 'x', ':', 'x', 'x', ':', 'x', 'x', ':', 'x', 'x']) =
      .error (.BadCharacter 'x' 0) :=
  C5_amended_first_bad [] ['x', ':', 'x', 'x', ':', 'x', 'x', ':', 'x', 'x', ':', 'x', 'x', ':', 'x', 'x']
    'x' (by decide) (by decide) (by decide) (by decide) (by decide)

/-- Claim C6: `create_magic_packet` is exactly the parse followed by the
packet encoding on success, and it returns an error exactly when the
parser does, with the identical error value. -/
theorem C6_error_propagation (mac : List Char) :
    create_magic_packet mac =
      Except.map (fun eui => fillLoop eui (List.replicate 102 0xFF)) (parse_mac mac) ∧
    (∀ e, create_magic_packet mac = .error e ↔ parse_mac mac = .error e) := by
  constructor
  · cases hp : parse_mac mac <;> simp [create_magic_packet, hp, Except.map]
  · intro e
    cases hp : parse_mac mac <;> simp [create_magic_packet, hp]

/-- Witness for claim C6 at the input `"a"`. -/
theorem C6_error_propagation_witness :
    create_magic_packet ['a'] = .error (.BadLength 1) ↔
      parse_mac ['a'] = .error (.BadLength 1) :=
  (C6_error_propagation ['a']).2 (.BadLength 1)

/-- Claim C7: the three separator characters are interchangeable: two
accepted inputs that differ only in which separator occupies each
separator position parse to the same result. -/
theorem C7_separator_interchange (s t : List Char) (h : sepCompatible s t = true) :
    parse_mac s = parse_mac t := by
  unfold parse_mac
  rw [sepCompatible_byteLen s t h]
  split
  · exact scan_sepCompatible s t 0 _ false 0 h
  · rfl

/-- Witness for claim C7: `"ca.11:ab-1e.ba:be"` parses like
`"ca:11:ab:1e:ba:be"`, to the bytes `[0xCA, 0x11, 0xAB, 0x1E, 0xBA, 0xBE]`. -/
theorem C7_separator_interchange_witness :
    parse_mac mixedInput = parse_mac uniformInput ∧
    parse_mac uniformInput = .ok [0xCA, 0x11, 0xAB, 0x1E, 0xBA, 0xBE] :=
  ⟨C7_separator_interchange mixedInput uniformInput (by decide), by decide⟩

/-- Counterexample to claim C8: parsing `"he.js:an:cc:dd:ee"` does not
fail at `'j'` at index 3; it fails at `'h'` at index 0, because `'h'` is
not a hex digit. -/
theorem C8_counterexample :
    parse_mac hejsInput = .error (.BadCharacter 'h' 0) ∧
    parse_mac hejsInput ≠ .error (.BadCharacter 'j' 3) ∧
    isHexDigit 'h' = false := by decide

/-- Claim C8 as amended: parsing `"he.js:an:cc:dd:ee"` fails with
`BadCharacter` at the first invalid character, which is `'h'` at index 0
(`'h'` is not a hexadecimal digit). -/
theorem C8_amended_first_failure :
    parse_mac hejsInput = .error (.BadCharacter 'h' 0) := by decide

/-- Claim C9: `create_magic_packet "AA:aa:aa:aa:aa:aa"` succeeds — hex
digits are read case-insensitively, as parsing the all-lowercase input
confirms — and the payload starts with six `255` bytes followed by six
`170` bytes, and ends with six `170` bytes. -/
theorem C9_literal_scenario :
    parse_mac upperLowerInput = parse_mac lowerInput ∧
    ∃ p, create_magic_packet upperLowerInput = .ok p ∧
      p.length = 102 ∧
      p.take 6 = [255, 255, 255, 255, 255, 255] ∧
      (p.drop 6).take 6 = [170, 170, 170, 170, 170, 170] ∧
      (p.drop 96).take 6 = [170, 170, 170, 170, 170, 170] := by
  constructor
  · decide
  · exact ⟨fillLoop (List.replicate 6 0xAA) (List.replicate 102 0xFF),
      by decide, by decide, by decide, by decide, by decide⟩

/-- Claim C10: separators need not fall on octet boundaries.  Any
accepted-length input made of exactly twelve hex digits and separators,
with no character after the twelfth hex digit, parses to the octets
obtained by pairing the hex digits in order of appearance. -/
theorem C10_separators_anywhere (mac : List Char)
    (hlen : byteLen mac = 12 ∨ byteLen mac = 14 ∨ byteLen mac = 17)
    (hall : ∀ c ∈ mac, isHexDigit c = true ∨ isSep c = true)
    (hcount : mac.countP isHexDigit = 12)
    (hbefore : ∀ k, k < mac.length → (mac.take k).countP isHexDigit < 12) :
    parse_mac mac = .ok (hexPairs (mac.filter isHexDigit)) := by
  unfold parse_mac
  rw [if_pos hlen]
  rw [scan_all_good mac 0 _ false 0 hall (fun k hk => by simpa using hbefore k hk)]
  rw [consume_eq_hexPairs _ (by rw [← List.countP_eq_length_filter]; exact hcount)]

/-- Witness for claim C10: `"a-ab-bc-cd-de-ef1"` parses to
`[0xAA, 0xBB, 0xCC, 0xDD, 0xEE, 0xF1]`. -/
theorem C10_separators_anywhere_witness :
    parse_mac offBoundaryInput = .ok [0xAA, 0xBB, 0xCC, 0xDD, 0xEE, 0xF1] :=
  (C10_separators_anywhere offBoundaryInput (by decide) (by decide) (by decide)
    (by decide)).trans (by decide)

end Wolrs
